import Mathlib

/-
Verification of the `queue` Go package (isavitsky/queue): a four-level
priority FIFO queue with a capacity-1 readiness-signal channel.

Shallow embedding: the Go struct `queue` becomes a Lean structure; the
capacity-1 channel `signal chan struct{}` is modelled by the number of
tokens it currently holds (a `Nat`; the non-blocking send of
`select { case q.signal <- struct{}{}: default: }` only deposits when the
count is below the capacity 1).  All operations are modelled sequentially
(single-threaded driver): every Go method acquires the single mutex for
its whole body, so a sequential trace is exactly an interleaving of the
lock-protected critical sections.  `any` payloads become a type
parameter `α`; the Go `QueuePriority int` becomes `Int`.
-/

set_option autoImplicit false

namespace PriorityQueueSpec

/-- The four priority constants (`QueuePriority` values) from queue.go. -/
def PriorityLow : Int := 0

/-- PriorityNormal = 1. -/
def PriorityNormal : Int := 1

/-- PriorityHigh = 2. -/
def PriorityHigh : Int := 2

/-- PriorityCritical = 3. -/
def PriorityCritical : Int := 3

/-- The `queue` struct: four item slices plus the signal channel, whose
contents we model as the number of pending tokens (the Go channel is
created with capacity 1 by `NewQueue`). -/
structure Queue (α : Type) where
  signal : Nat
  low : List α
  norm : List α
  high : List α
  crit : List α
  deriving DecidableEq, Repr

variable {α : Type}

/-- `NewQueue` returns an initialized queue: empty slices, empty channel. -/
def NewQueue (α : Type) : Queue α :=
  ⟨0, [], [], [], []⟩

/-- The non-blocking send `select { case ch <- struct{}{}: default: }` on a
capacity-1 channel holding `s` tokens: deposit a token only if the channel
has room. -/
def trySend (s : Nat) : Nat :=
  if s < 1 then s + 1 else s

/-- `lenWithoutLock`: the sum of the four slice lengths, added in the
source's order low, norm, high, crit. -/
def lenWithoutLock (q : Queue α) : Nat :=
  q.low.length + q.norm.length + q.high.length + q.crit.length

/-- `Len()`: `lenWithoutLock` under the lock. -/
def Len (q : Queue α) : Nat :=
  lenWithoutLock q

/-- The new channel content computed by `prepSignal` from the old content
`s` and the current queue length `len`: a non-blocking receive withdraws a
token if present (setting `send`), then `send` is forced to true when the
queue is non-empty, and finally a token is (re)deposited non-blockingly
when `send` holds. -/
def prepSignalVal (s len : Nat) : Nat :=
  let send := 0 < s
  let s1 := s - 1
  if send ∨ 0 < len then trySend s1 else s1

/-- `prepSignal`: only the signal channel changes; the slices are read
(via `lenWithoutLock`) but untouched. -/
def prepSignal (q : Queue α) : Queue α :=
  { q with signal := prepSignalVal q.signal (lenWithoutLock q) }

/-- `drain`: receive in a loop until the channel is empty. -/
def drain (q : Queue α) : Queue α :=
  { q with signal := 0 }

/-- The unexported `append` method: push the item on the slice selected by
the `switch` (an unmatched priority falls through and pushes nowhere), then
non-blockingly deposit a signal token. -/
def append (data : α) (priority : Int) (q : Queue α) : Queue α :=
  let q1 :=
    if priority = PriorityLow then { q with low := q.low ++ [data] }
    else if priority = PriorityNormal then { q with norm := q.norm ++ [data] }
    else if priority = PriorityHigh then { q with high := q.high ++ [data] }
    else if priority = PriorityCritical then { q with crit := q.crit ++ [data] }
    else q
  { q1 with signal := trySend q1.signal }

/-- `Append(data)` is `append(data, PriorityNormal)`. -/
def Append (data : α) (q : Queue α) : Queue α :=
  append data PriorityNormal q

/-- `AppendPriority(data, priority)` is `append(data, priority)`. -/
def AppendPriority (data : α) (priority : Int) (q : Queue α) : Queue α :=
  append data priority q

/-- `Signal()`: run `prepSignal` under the lock and hand the channel to the
caller; the state effect is `prepSignal`. -/
def Signal (q : Queue α) : Queue α :=
  prepSignal q

/-- `Next()`: scan crit, high, norm, low; pop the head of the first
non-empty slice and run `prepSignal`, or report not-found and `drain`.
The Go `(any, bool)` result is modelled as `Option α`. -/
def Next (q : Queue α) : Option α × Queue α :=
  match q.crit with
  | d :: tl => (some d, prepSignal { q with crit := tl })
  | [] =>
    match q.high with
    | d :: tl => (some d, prepSignal { q with high := tl })
    | [] =>
      match q.norm with
      | d :: tl => (some d, prepSignal { q with norm := tl })
      | [] =>
        match q.low with
        | d :: tl => (some d, prepSignal { q with low := tl })
        | [] => (none, drain q)

/-- `Peek()`: the same scan as `Next` but nothing is removed and the
signal is untouched. -/
def Peek (q : Queue α) : Option α × Queue α :=
  match q.crit with
  | d :: _ => (some d, q)
  | [] =>
    match q.high with
    | d :: _ => (some d, q)
    | [] =>
      match q.norm with
      | d :: _ => (some d, q)
      | [] =>
        match q.low with
        | d :: _ => (some d, q)
        | [] => (none, q)

/-- Fuel-indexed unrolling of the `Process` loop: call `Next`, stop on
not-found, otherwise record the item handed to the callback and continue.
Each successful `Next` removes one item, so `lenWithoutLock q + 1` steps
always reach the not-found exit; `processFuel_stable` below proves the
result is the same for every sufficient fuel, i.e. the loop terminates. -/
def processFuel : Nat → Queue α → List α × Queue α
  | 0, q => ([], q)
  | n + 1, q =>
    match Next q with
    | (none, q1) => ([], q1)
    | (some d, q1) =>
      let r := processFuel n q1
      (d :: r.1, r.2)

/-- `Process(callback)`: the sequence of items passed to the callback, in
order, together with the final queue state. -/
def Process (q : Queue α) : List α × Queue α :=
  processFuel (lenWithoutLock q + 1) q

/-- `Empty()` is `Len() == 0`. -/
def Empty (q : Queue α) : Bool :=
  Len q == 0

/-- `lenWithoutLock` of the queue built by a sequence of `append` calls
`(data, priority)` executed left to right, starting from a given state. -/
def appendAll (ops : List (α × Int)) (q : Queue α) : Queue α :=
  ops.foldl (fun acc x => append x.1 x.2 acc) q

/-- The items of an append sequence carrying a given priority, in append
order (used to state the FIFO-partition property). -/
def itemsAt (p : Int) (ops : List (α × Int)) : List α :=
  (ops.filter (fun x => x.2 == p)).map Prod.fst

/-- The priorities accepted by the `switch` in `append`. -/
def validPriority (p : Int) : Prop :=
  p = PriorityLow ∨ p = PriorityNormal ∨ p = PriorityHigh ∨ p = PriorityCritical

instance (p : Int) : Decidable (validPriority p) := by
  unfold validPriority; infer_instance

/-- One public operation of the `Queue` interface, for sequential traces. -/
inductive Op (α : Type) where
  | append (d : α)
  | appendPriority (d : α) (p : Int)
  | next
  | peek
  | signal
  | process
  | empty
  | len
  deriving DecidableEq, Repr

/-- Run one operation; also report how many append calls it made and how
many of its `Next()` calls returned `found = true`. -/
def stepCount : Op α → Queue α → Queue α × Nat × Nat
  | .append d, q => (Append d q, 1, 0)
  | .appendPriority d p, q => (AppendPriority d p q, 1, 0)
  | .next, q => ((Next q).2, 0, if (Next q).1.isSome then 1 else 0)
  | .peek, q => ((Peek q).2, 0, 0)
  | .signal, q => (Signal q, 0, 0)
  | .process, q => ((Process q).2, 0, (Process q).1.length)
  | .empty, q => (q, 0, 0)
  | .len, q => (q, 0, 0)

/-- Run a sequence of operations, accumulating the counts of `stepCount`. -/
def runCount : List (Op α) → Queue α → Queue α × Nat × Nat
  | [], q => (q, 0, 0)
  | op :: rest, q =>
    let s := stepCount op q
    let r := runCount rest s.1
    (r.1, s.2.1 + r.2.1, s.2.2 + r.2.2)

/-- An operation whose priority argument (if any) is one of the four
defined constants. -/
def opValid : Op α → Prop
  | .appendPriority _ p => validPriority p
  | _ => True

instance (op : Op α) : Decidable (opValid op) := by
  cases op <;> (unfold opValid; infer_instance)

/-- The states reachable from a freshly constructed queue by the public
operations (`Empty` and `Len` read without mutating; `Peek` returns its
state component unchanged but is listed for completeness). -/
inductive Reachable : Queue α → Prop where
  | new : Reachable (NewQueue α)
  | append (d : α) (q : Queue α) : Reachable q → Reachable (Append d q)
  | appendPriority (d : α) (p : Int) (q : Queue α) :
      Reachable q → Reachable (AppendPriority d p q)
  | next (q : Queue α) : Reachable q → Reachable (Next q).2
  | peek (q : Queue α) : Reachable q → Reachable (Peek q).2
  | signal (q : Queue α) : Reachable q → Reachable (Signal q)
  | process (q : Queue α) : Reachable q → Reachable (Process q).2

/-! Helper lemmas about the signal channel. -/

theorem trySend_le {s : Nat} (h : s ≤ 1) : trySend s ≤ 1 := by
  unfold trySend; split <;> omega

theorem prepSignalVal_le {s : Nat} (len : Nat) (h : s ≤ 1) :
    prepSignalVal s len ≤ 1 := by
  simp only [prepSignalVal, trySend]
  split
  · split <;> omega
  · omega

theorem prepSignalVal_pos (s len : Nat) :
    0 < prepSignalVal s len ↔ (0 < s ∨ 0 < len) := by
  simp only [prepSignalVal, trySend]
  split
  · split <;> omega
  · omega

theorem lenWithoutLock_prepSignal (q : Queue α) :
    lenWithoutLock (prepSignal q) = lenWithoutLock q := rfl

/-! Helper lemmas about `Next`. -/

theorem Next_isSome_iff (q : Queue α) :
    (Next q).1.isSome ↔ 0 < lenWithoutLock q := by
  obtain ⟨s, low, norm, high, crit⟩ := q
  cases crit <;> cases high <;> cases norm <;> cases low <;>
    simp [Next, lenWithoutLock]

theorem Next_isSome_len (q : Queue α) (h : (Next q).1.isSome) :
    lenWithoutLock (Next q).2 + 1 = lenWithoutLock q := by
  obtain ⟨s, low, norm, high, crit⟩ := q
  cases crit <;> cases high <;> cases norm <;> cases low <;>
    simp_all [Next, lenWithoutLock, prepSignal]
  all_goals omega

theorem Next_none_state (q : Queue α) (h : (Next q).1 = none) :
    (Next q).2 = drain q ∧ lenWithoutLock q = 0 := by
  obtain ⟨s, low, norm, high, crit⟩ := q
  cases crit <;> cases high <;> cases norm <;> cases low <;>
    simp_all [Next, lenWithoutLock]

/-! Helper lemmas about `append` and `Peek`. -/

theorem append_signal (d : α) (p : Int) (q : Queue α) :
    (append d p q).signal = trySend q.signal := by
  simp only [append]
  split_ifs <;> rfl

theorem append_low (d : α) (p : Int) (q : Queue α) :
    (append d p q).low = if p = PriorityLow then q.low ++ [d] else q.low := by
  simp only [append]
  split_ifs <;> rfl

theorem append_norm (d : α) (p : Int) (q : Queue α) :
    (append d p q).norm = if p = PriorityNormal then q.norm ++ [d] else q.norm := by
  simp only [append]
  split_ifs <;> first | rfl | simp_all [PriorityLow, PriorityNormal]

theorem append_high (d : α) (p : Int) (q : Queue α) :
    (append d p q).high = if p = PriorityHigh then q.high ++ [d] else q.high := by
  simp only [append]
  split_ifs <;> first | rfl | simp_all [PriorityLow, PriorityNormal, PriorityHigh]

theorem append_crit (d : α) (p : Int) (q : Queue α) :
    (append d p q).crit = if p = PriorityCritical then q.crit ++ [d] else q.crit := by
  simp only [append]
  split_ifs <;>
    first
      | rfl
      | simp_all [PriorityLow, PriorityNormal, PriorityHigh, PriorityCritical]

theorem lenWithoutLock_append (d : α) (p : Int) (q : Queue α) :
    lenWithoutLock (append d p q) =
      if validPriority p then lenWithoutLock q + 1 else lenWithoutLock q := by
  simp only [lenWithoutLock, append_low, append_norm, append_high, append_crit,
    validPriority]
  split_ifs <;>
    simp_all [PriorityLow, PriorityNormal, PriorityHigh, PriorityCritical] <;> omega

theorem Peek_state (q : Queue α) : (Peek q).2 = q := by
  obtain ⟨s, low, norm, high, crit⟩ := q
  cases crit <;> cases high <;> cases norm <;> cases low <;> simp [Peek]

theorem Next_isSome_signal (q : Queue α) (h : (Next q).1.isSome) :
    (Next q).2.signal = prepSignalVal q.signal (lenWithoutLock (Next q).2) := by
  obtain ⟨s, low, norm, high, crit⟩ := q
  cases crit <;> cases high <;> cases norm <;> cases low <;>
    simp_all [Next, prepSignal, lenWithoutLock]

/-- The queue built by a sequence of appends: each slice holds the old
contents followed by the items appended at that slice's priority, in
append order; items at undefined priorities land nowhere. -/
theorem appendAll_fields (ops : List (α × Int)) :
    ∀ q : Queue α,
      (appendAll ops q).crit = q.crit ++ itemsAt PriorityCritical ops ∧
      (appendAll ops q).high = q.high ++ itemsAt PriorityHigh ops ∧
      (appendAll ops q).norm = q.norm ++ itemsAt PriorityNormal ops ∧
      (appendAll ops q).low = q.low ++ itemsAt PriorityLow ops := by
  induction ops with
  | nil => intro q; simp [appendAll, itemsAt]
  | cons x rest ih =>
    intro q
    obtain ⟨d, p⟩ := x
    obtain ⟨h3, h2, h1, h0⟩ := ih (append d p q)
    simp only [appendAll, List.foldl_cons] at h3 h2 h1 h0 ⊢
    rw [h3, h2, h1, h0, append_crit, append_high, append_norm, append_low]
    refine ⟨?_, ?_, ?_, ?_⟩ <;>
    · simp only [itemsAt, List.filter_cons]
      split_ifs <;> simp_all

/-! The master lemma about the `Process` loop: with enough fuel it returns
the four slices in priority order and leaves the pristine empty state
(all slices empty, signal drained by the final not-found `Next`). -/

theorem processFuel_spec (n : Nat) :
    ∀ q : Queue α, lenWithoutLock q < n →
      processFuel n q = (q.crit ++ q.high ++ q.norm ++ q.low, NewQueue α) := by
  induction n with
  | zero => intro q h; exact absurd h (Nat.not_lt_zero _)
  | succ n ih =>
    intro q h
    obtain ⟨s, low, norm, high, crit⟩ := q
    cases crit with
    | cons d tl =>
      have hih := ih (prepSignal (⟨s, low, norm, high, tl⟩ : Queue α)) (by
        rw [lenWithoutLock_prepSignal]; simp_all [lenWithoutLock] <;> omega)
      simp [prepSignal] at hih
      simp [processFuel, Next, prepSignal, hih]
    | nil =>
      cases high with
      | cons d tl =>
        have hih := ih (prepSignal (⟨s, low, norm, tl, []⟩ : Queue α)) (by
          rw [lenWithoutLock_prepSignal]; simp_all [lenWithoutLock] <;> omega)
        simp [prepSignal] at hih
        simp [processFuel, Next, prepSignal, hih]
      | nil =>
        cases norm with
        | cons d tl =>
          have hih := ih (prepSignal (⟨s, low, tl, [], []⟩ : Queue α)) (by
            rw [lenWithoutLock_prepSignal]; simp_all [lenWithoutLock] <;> omega)
          simp [prepSignal] at hih
          simp [processFuel, Next, prepSignal, hih]
        | nil =>
          cases low with
          | cons d tl =>
            have hih := ih (prepSignal (⟨s, tl, [], [], []⟩ : Queue α)) (by
              rw [lenWithoutLock_prepSignal]; simp_all [lenWithoutLock] <;> omega)
            simp [prepSignal] at hih
            simp [processFuel, Next, prepSignal, hih]
          | nil =>
            simp [processFuel, Next, drain, NewQueue]

theorem Process_eq (q : Queue α) :
    Process q = (q.crit ++ q.high ++ q.norm ++ q.low, NewQueue α) :=
  processFuel_spec _ q (Nat.lt_succ_self _)

theorem processFuel_stable (m : Nat) (q : Queue α) (h : lenWithoutLock q < m) :
    processFuel m q = Process q := by
  rw [processFuel_spec m q h, Process_eq]

theorem Next_fst_eq_head (q : Queue α) :
    (Next q).1 = (q.crit ++ q.high ++ q.norm ++ q.low).head? := by
  obtain ⟨s, low, norm, high, crit⟩ := q
  cases crit <;> cases high <;> cases norm <;> cases low <;> simp [Next]

theorem Peek_fst_eq_head (q : Queue α) :
    (Peek q).1 = (q.crit ++ q.high ++ q.norm ++ q.low).head? := by
  obtain ⟨s, low, norm, high, crit⟩ := q
  cases crit <;> cases high <;> cases norm <;> cases low <;> simp [Peek]

/-! Lemmas for the operation-trace accounting. -/

theorem stepCount_len (op : Op α) (q : Queue α) (hv : opValid op) :
    Len (stepCount op q).1 + (stepCount op q).2.2 = Len q + (stepCount op q).2.1 := by
  cases op with
  | append d =>
    have h1 : validPriority PriorityNormal := by decide
    simp [stepCount, Append, Len, lenWithoutLock_append, h1]
  | appendPriority d p =>
    have h1 : validPriority p := hv
    simp [stepCount, AppendPriority, Len, lenWithoutLock_append, h1]
  | next =>
    by_cases hsome : (Next q).1.isSome
    · have h1 := Next_isSome_len q hsome
      simp [stepCount, Len, hsome]
      omega
    · have h0 : (Next q).1 = none := by
        cases hx : (Next q).1 <;> simp_all
      obtain ⟨h1, h2⟩ := Next_none_state q h0
      simp [stepCount, Len, h0, h1, drain, lenWithoutLock] at h2 ⊢ <;> omega
  | peek => simp [stepCount, Peek_state]
  | signal => simp [stepCount]; rfl
  | process =>
    simp [stepCount, Process_eq, Len, lenWithoutLock, NewQueue]
    omega
  | empty => simp [stepCount]
  | len => simp [stepCount]

theorem runCount_len (ops : List (Op α)) :
    ∀ q : Queue α, (∀ op ∈ ops, opValid op) →
      Len (runCount ops q).1 + (runCount ops q).2.2 =
        Len q + (runCount ops q).2.1 := by
  induction ops with
  | nil => intro q h; simp [runCount]
  | cons op rest ih =>
    intro q h
    have hop : opValid op := h op (List.mem_cons_self op rest)
    have hrest := ih (stepCount op q).1 (fun o ho => h o (List.mem_cons_of_mem op ho))
    have hstep := stepCount_len op q hop
    simp only [runCount]
    omega

/-! The claims. -/

/-- C1: for every sequence of appends at any mix of the four priorities,
repeated `Next()` calls return the items partitioned by priority in
descending order — all Critical, then High, then Normal, then Low — and
within each level in exactly the order they were appended. -/
theorem C1_priority_fifo_partition (ops : List (α × Int))
    (hvalid : ∀ x ∈ ops, validPriority x.2) :
    (Process (appendAll ops (NewQueue α))).1 =
      itemsAt PriorityCritical ops ++ itemsAt PriorityHigh ops ++
        itemsAt PriorityNormal ops ++ itemsAt PriorityLow ops := by
  obtain ⟨h3, h2, h1, h0⟩ := appendAll_fields ops (NewQueue α)
  rw [Process_eq, h3, h2, h1, h0]
  simp [NewQueue]

/-- Witness for C1 at a concrete interleaved append sequence. -/
theorem C1_priority_fifo_partition_witness :
    (Process (appendAll [((10 : Nat), PriorityCritical), (20, PriorityLow),
      (30, PriorityCritical), (40, PriorityNormal), (50, PriorityHigh),
      (60, PriorityNormal)] (NewQueue Nat))).1 = [10, 30, 50, 40, 60, 20] :=
  (C1_priority_fifo_partition _ (by decide)).trans (by decide)

/-- C2 as stated is false: after a successful `Next()` that removes the
last remaining item, the token withdrawn by `prepSignal` is redeposited
even though the queue is now empty, so a notification is pending while the
queue is empty. -/
theorem C2_counterexample :
    ¬ (0 < (Next (append (0 : Nat) PriorityNormal (NewQueue Nat))).2.signal ↔
        0 < Len (Next (append (0 : Nat) PriorityNormal (NewQueue Nat))).2) := by
  decide

/-- C2 (amended): immediately after `Next()` or `Signal()` returns, a
token is pending iff the queue is non-empty or a token was already pending
when the operation began; only a not-found `Next()` drains the mailbox.
In particular a successful `Next()` that removes the last item, and
`Signal()` at length 0, redeposit a stale token rather than draining it. -/
theorem C2_signal_after_next_and_signal (q : Queue α) :
    ((Next q).1.isSome →
      (0 < (Next q).2.signal ↔ (0 < q.signal ∨ 0 < Len (Next q).2)))
    ∧ ((Next q).1 = none → (Next q).2.signal = 0)
    ∧ (0 < (Signal q).signal ↔ (0 < q.signal ∨ 0 < Len q)) := by
  refine ⟨fun h => ?_, fun h => ?_, ?_⟩
  · rw [Next_isSome_signal q h, Len, prepSignalVal_pos]
  · rw [(Next_none_state q h).1]; rfl
  · show 0 < prepSignalVal q.signal (lenWithoutLock q) ↔ _
    rw [Len, prepSignalVal_pos]

/-- Witness for C2 (amended) at a queue holding one normal item and a
pending token. -/
theorem C2_signal_after_next_and_signal_witness :
    (((Next (append (0 : Nat) PriorityNormal (NewQueue Nat))).1.isSome →
      (0 < (Next (append (0 : Nat) PriorityNormal (NewQueue Nat))).2.signal ↔
        (0 < (append (0 : Nat) PriorityNormal (NewQueue Nat)).signal ∨
          0 < Len (Next (append (0 : Nat) PriorityNormal (NewQueue Nat))).2)))
    ∧ ((Next (append (0 : Nat) PriorityNormal (NewQueue Nat))).1 = none →
        (Next (append (0 : Nat) PriorityNormal (NewQueue Nat))).2.signal = 0)
    ∧ (0 < (Signal (append (0 : Nat) PriorityNormal (NewQueue Nat))).signal ↔
        (0 < (append (0 : Nat) PriorityNormal (NewQueue Nat)).signal ∨
          0 < Len (append (0 : Nat) PriorityNormal (NewQueue Nat))))) :=
  C2_signal_after_next_and_signal _

/-- C3: in every state reachable from a fresh queue by the public
operations, the readiness mailbox holds at most one token. -/
theorem C3_signal_at_most_one (q : Queue α) (h : Reachable q) : q.signal ≤ 1 := by
  induction h with
  | new => simp [NewQueue]
  | append d q hq ih =>
    rw [Append, append_signal]
    exact trySend_le ih
  | appendPriority d p q hq ih =>
    rw [AppendPriority, append_signal]
    exact trySend_le ih
  | next q hq ih =>
    by_cases hsome : (Next q).1.isSome
    · rw [Next_isSome_signal q hsome]
      exact prepSignalVal_le _ ih
    · have h0 : (Next q).1 = none := by
        cases hx : (Next q).1 <;> simp_all
      rw [(Next_none_state q h0).1]
      simp [drain]
  | peek q hq ih =>
    rw [Peek_state]
    exact ih
  | signal q hq ih =>
    exact prepSignalVal_le _ ih
  | process q hq ih =>
    rw [Process_eq]
    simp [NewQueue]

/-- Witness for C3 at a state reached by two appends and a `Next()`. -/
theorem C3_signal_at_most_one_witness :
    (Next (AppendPriority 7 PriorityCritical (Append (5 : Nat) (NewQueue Nat)))).2.signal ≤ 1 :=
  C3_signal_at_most_one _
    (Reachable.next _ (Reachable.appendPriority 7 PriorityCritical _
      (Reachable.append 5 _ Reachable.new)))

/-- C4: when all four slices are empty, `Next()` reports not-found, leaves
the four slices unchanged, and drains the mailbox. -/
theorem C4_next_on_empty (q : Queue α) (hc : q.crit = []) (hh : q.high = [])
    (hn : q.norm = []) (hl : q.low = []) :
    (Next q).1 = none ∧ (Next q).2.low = q.low ∧ (Next q).2.norm = q.norm ∧
    (Next q).2.high = q.high ∧ (Next q).2.crit = q.crit ∧
    (Next q).2.signal = 0 := by
  obtain ⟨s, low, norm, high, crit⟩ := q
  simp_all [Next, drain]

/-- Witness for C4 at an empty queue carrying a stale token. -/
theorem C4_next_on_empty_witness :
    (Next (Queue.mk 1 [] [] [] [] : Queue Nat)).1 = none ∧
    (Next (Queue.mk 1 [] [] [] [] : Queue Nat)).2.low = [] ∧
    (Next (Queue.mk 1 [] [] [] [] : Queue Nat)).2.norm = [] ∧
    (Next (Queue.mk 1 [] [] [] [] : Queue Nat)).2.high = [] ∧
    (Next (Queue.mk 1 [] [] [] [] : Queue Nat)).2.crit = [] ∧
    (Next (Queue.mk 1 [] [] [] [] : Queue Nat)).2.signal = 0 := by
  have h := C4_next_on_empty (Queue.mk 1 [] [] [] [] : Queue Nat) rfl rfl rfl rfl
  exact h

/-- C5: with exactly (Low,"a"), (Critical,"b"), (Normal,"c") appended in
that order, `Process` invokes the callback exactly three times, in the
order "b", "c", "a". -/
theorem C5_process_order :
    (Process (appendAll [("a", PriorityLow), ("b", PriorityCritical),
      ("c", PriorityNormal)] (NewQueue String))).1 = ["b", "c", "a"] := by
  decide

/-- C6: `Peek()` returns exactly the pair an immediately following
`Next()` returns, and changes nothing: its state component (slices,
length, mailbox) is the input queue itself. -/
theorem C6_peek_matches_next (q : Queue α) :
    (Peek q).1 = (Next q).1 ∧ (Peek q).2 = q := by
  exact ⟨(Peek_fst_eq_head q).trans (Next_fst_eq_head q).symm, Peek_state q⟩

/-- C7: over any sequential operation trace from a fresh queue whose
priorities are all defined, `Len()` equals the number of append calls
minus the number of `Next()` calls that returned found; each append adds
one and each successful `Next()` removes one. -/
theorem C7_len_accounting (ops : List (Op α)) (hv : ∀ op ∈ ops, opValid op) :
    Len (runCount ops (NewQueue α)).1 + (runCount ops (NewQueue α)).2.2 =
      (runCount ops (NewQueue α)).2.1
    ∧ (∀ (d : α) (p : Int) (q : Queue α), validPriority p →
        Len (append d p q) = Len q + 1)
    ∧ (∀ q : Queue α, (Next q).1.isSome → Len (Next q).2 + 1 = Len q) := by
  refine ⟨?_, ?_, ?_⟩
  · have h := runCount_len ops (NewQueue α) hv
    have h0 : Len (NewQueue α) = 0 := rfl
    omega
  · intro d p q hp
    simp [Len, lenWithoutLock_append, hp]
  · intro q h
    exact Next_isSome_len q h

/-- Witness for C7 at a concrete trace mixing appends, pops and a drain. -/
theorem C7_len_accounting_witness :
    Len (runCount [Op.append (1 : Nat), Op.appendPriority 2 PriorityCritical,
      Op.next, Op.signal, Op.appendPriority 3 PriorityLow, Op.peek, Op.next,
      Op.next, Op.next, Op.append 4, Op.process, Op.empty, Op.len]
      (NewQueue Nat)).1 +
    (runCount [Op.append (1 : Nat), Op.appendPriority 2 PriorityCritical,
      Op.next, Op.signal, Op.appendPriority 3 PriorityLow, Op.peek, Op.next,
      Op.next, Op.next, Op.append 4, Op.process, Op.empty, Op.len]
      (NewQueue Nat)).2.2 =
    (runCount [Op.append (1 : Nat), Op.appendPriority 2 PriorityCritical,
      Op.next, Op.signal, Op.appendPriority 3 PriorityLow, Op.peek, Op.next,
      Op.next, Op.next, Op.append 4, Op.process, Op.empty, Op.len]
      (NewQueue Nat)).2.1 :=
  (C7_len_accounting _ (by decide)).1

/-- C8: in every reachable state, `Empty()` is true iff `Len()` — the sum
of the four slice lengths — is zero. -/
theorem C8_empty_iff_len_zero (q : Queue α) (h : Reachable q) :
    Empty q = true ↔ Len q = 0 := by
  simp [Empty]

/-- Witness for C8 at a reachable non-empty state. -/
theorem C8_empty_iff_len_zero_witness :
    Empty (Append (5 : Nat) (NewQueue Nat)) = true ↔
      Len (Append (5 : Nat) (NewQueue Nat)) = 0 :=
  C8_empty_iff_len_zero _ (Reachable.append 5 _ Reachable.new)

/-- C9: for any priority outside the four defined constants,
`AppendPriority` silently discards the item — slices and `Len()` are
unchanged and the item is never handed out by `Next` (via `Process`) or
`Peek` — yet a readiness token is still deposited when none is pending. -/
theorem C9_invalid_priority_discarded (d : α) (p : Int) (q : Queue α)
    (h : ¬ validPriority p) :
    (AppendPriority d p q).low = q.low ∧
    (AppendPriority d p q).norm = q.norm ∧
    (AppendPriority d p q).high = q.high ∧
    (AppendPriority d p q).crit = q.crit ∧
    Len (AppendPriority d p q) = Len q ∧
    (AppendPriority d p q).signal = (if q.signal = 0 then 1 else q.signal) ∧
    (Process (AppendPriority d p q)).1 = (Process q).1 ∧
    (Peek (AppendPriority d p q)).1 = (Peek q).1 := by
  have h0 : ¬ p = PriorityLow := fun hh => h (Or.inl hh)
  have h1 : ¬ p = PriorityNormal := fun hh => h (Or.inr (Or.inl hh))
  have h2 : ¬ p = PriorityHigh := fun hh => h (Or.inr (Or.inr (Or.inl hh)))
  have h3 : ¬ p = PriorityCritical := fun hh => h (Or.inr (Or.inr (Or.inr hh)))
  have hlow := append_low d p q
  have hnorm := append_norm d p q
  have hhigh := append_high d p q
  have hcrit := append_crit d p q
  rw [if_neg h0] at hlow
  rw [if_neg h1] at hnorm
  rw [if_neg h2] at hhigh
  rw [if_neg h3] at hcrit
  refine ⟨hlow, hnorm, hhigh, hcrit, ?_, ?_, ?_, ?_⟩
  · rw [AppendPriority, Len, Len, lenWithoutLock_append, if_neg h]
  · rw [AppendPriority, append_signal, trySend]
    split_ifs <;> omega
  · rw [Process_eq, Process_eq, AppendPriority, hlow, hnorm, hhigh, hcrit]
  · rw [Peek_fst_eq_head, Peek_fst_eq_head, AppendPriority, hlow, hnorm, hhigh, hcrit]

/-- Witness for C9 at the out-of-range priority 4. -/
theorem C9_invalid_priority_discarded_witness :
    (AppendPriority (9 : Nat) 4 (NewQueue Nat)).low = (NewQueue Nat).low ∧
    (AppendPriority (9 : Nat) 4 (NewQueue Nat)).norm = (NewQueue Nat).norm ∧
    (AppendPriority (9 : Nat) 4 (NewQueue Nat)).high = (NewQueue Nat).high ∧
    (AppendPriority (9 : Nat) 4 (NewQueue Nat)).crit = (NewQueue Nat).crit ∧
    Len (AppendPriority (9 : Nat) 4 (NewQueue Nat)) = Len (NewQueue Nat) ∧
    (AppendPriority (9 : Nat) 4 (NewQueue Nat)).signal =
      (if (NewQueue Nat).signal = 0 then 1 else (NewQueue Nat).signal) ∧
    (Process (AppendPriority (9 : Nat) 4 (NewQueue Nat))).1 =
      (Process (NewQueue Nat)).1 ∧
    (Peek (AppendPriority (9 : Nat) 4 (NewQueue Nat))).1 = (Peek (NewQueue Nat)).1 :=
  C9_invalid_priority_discarded 9 4 (NewQueue Nat) (by decide)

/-- C10: `Process` terminates on every queue state — any fuel beyond the
current length yields the loop's fixed point — invokes the callback once
per queued item in the dequeue order of `Next`, and leaves the queue
empty. -/
theorem C10_process_drains_all (q : Queue α) (m : Nat)
    (hm : lenWithoutLock q < m) :
    processFuel m q = Process q ∧
    (Process q).1.length = Len q ∧
    (Process q).1 = q.crit ++ q.high ++ q.norm ++ q.low ∧
    Len (Process q).2 = 0 := by
  refine ⟨processFuel_stable m q hm, ?_, ?_, ?_⟩
  · rw [Process_eq]
    simp [Len, lenWithoutLock]
    omega
  · rw [Process_eq]
  · rw [Process_eq]
    rfl

/-- Witness for C10 at a three-item queue with ample fuel. -/
theorem C10_process_drains_all_witness :
    processFuel 50 (appendAll [((1 : Nat), PriorityLow), (2, PriorityHigh),
        (3, PriorityLow)] (NewQueue Nat)) =
      Process (appendAll [((1 : Nat), PriorityLow), (2, PriorityHigh),
        (3, PriorityLow)] (NewQueue Nat)) ∧
    (Process (appendAll [((1 : Nat), PriorityLow), (2, PriorityHigh),
        (3, PriorityLow)] (NewQueue Nat))).1.length =
      Len (appendAll [((1 : Nat), PriorityLow), (2, PriorityHigh),
        (3, PriorityLow)] (NewQueue Nat)) ∧
    (Process (appendAll [((1 : Nat), PriorityLow), (2, PriorityHigh),
        (3, PriorityLow)] (NewQueue Nat))).1 =
      (appendAll [((1 : Nat), PriorityLow), (2, PriorityHigh),
        (3, PriorityLow)] (NewQueue Nat)).crit ++
      (appendAll [((1 : Nat), PriorityLow), (2, PriorityHigh),
        (3, PriorityLow)] (NewQueue Nat)).high ++
      (appendAll [((1 : Nat), PriorityLow), (2, PriorityHigh),
        (3, PriorityLow)] (NewQueue Nat)).norm ++
      (appendAll [((1 : Nat), PriorityLow), (2, PriorityHigh),
        (3, PriorityLow)] (NewQueue Nat)).low ∧
    Len (Process (appendAll [((1 : Nat), PriorityLow), (2, PriorityHigh),
        (3, PriorityLow)] (NewQueue Nat))).2 = 0 :=
  C10_process_drains_all _ 50 (by decide)

end PriorityQueueSpec
